import Mathlib

/-!
Verification development for the crypto-ledger repository
(source: src/scripts/ledger.py).

The Python source is shallowly embedded as follows.

* Timestamps. In the source, timestamps are naive date-time strings
  "YYYY-MM-DD HH:MM:SS".  Sorting (`DataFrame.sort_values` on the date
  column) is lexicographic on these strings, which for this fixed format
  coincides with chronological order; `get_days_between_dates` converts
  them to epoch milliseconds; `get_taxable_profit` tests
  `str.startswith(str(year))`, which for this format is exactly "the
  year field equals the given year".  We therefore model a timestamp as
  a structure carrying its epoch milliseconds together with its year
  field, ordering by milliseconds and testing the year for the
  `startswith` filter.

* Floating point arithmetic is idealised as exact rational arithmetic
  (`ℚ`).

* `pandas`/Python failures (`IndexError` from indexing past the end of
  `open_positions.index`, `ZeroDivisionError`, the `ValueError`s raised
  by `PriceFeed`) are modelled with `Except` and an explicit error
  kind for each raise site.

* Amounts in trade records are strictly positive (spec §3); the
  embedding of the lot-consumption loop mirrors the source's `while`
  loop for positive sell amounts (for non-positive sell amounts the
  source's Python negative indexing shows different, clearly
  unintended behaviour that is outside every record the program
  handles, and outside every claim).
-/

/-- A timestamp: epoch milliseconds plus the year field of its
"YYYY-MM-DD HH:MM:SS" rendering. -/
structure Date where
  ms : ℕ
  year : ℤ
  deriving DecidableEq

/-- Source `get_days_between_dates` (ledger.py lines 9-11):
absolute difference in milliseconds divided by `1000*60*60*24`. -/
def get_days_between_dates (d1 d2 : Date) : ℚ :=
  (((d1.ms : ℤ) - (d2.ms : ℤ)).natAbs : ℚ) / (1000 * 60 * 60 * 24)

/-- One row of `buy_history` / `sell_history`
(columns "Date(UTC)", "Asset Amount", "Total (EUR)"). -/
structure TradeRec where
  date : Date
  amount : ℚ
  total : ℚ
  deriving DecidableEq

/-- One row of `open_positions`
(columns "Date(UTC)", "Asset Amount", "EUR/Unit"). -/
structure Lot where
  date : Date
  amount : ℚ
  unitCost : ℚ
  deriving DecidableEq

/-- One row of `closed_positions` (columns "Date(UTC) of purchase",
"Date(UTC) of sell", "Holding time", "Asset Amount", "Profit/Loss (EUR)",
"Purchase price (EUR)", "Sell price (EUR)"). -/
structure ClosedLot where
  purchaseDate : Date
  sellDate : Date
  holdingDays : ℚ
  amount : ℚ
  profit : ℚ
  purchasePrice : ℚ
  sellPrice : ℚ
  deriving DecidableEq

/-- Failure kinds of the ledger computations.
`indexOutOfBounds` is the pandas `IndexError` raised by
`open_index[aggregator_index]` once `aggregator_index` runs past the end
of the open-positions index (ledger.py line 137); `zeroDivision` is the
Python `ZeroDivisionError` of the division at line 255.
`insufficientLots` is the error kind the specification names for
over-sells; no statement in the source produces it. -/
inductive LedgerErr
  | indexOutOfBounds
  | insufficientLots
  | zeroDivision
  deriving DecidableEq

/-- Ordering used by `sort_values` on the date column. -/
def dateLE (a b : TradeRec) : Prop := a.date.ms ≤ b.date.ms

instance : DecidableRel dateLE := fun a b =>
  inferInstanceAs (Decidable (a.date.ms ≤ b.date.ms))

instance : IsTotal TradeRec dateLE :=
  ⟨fun a b => Nat.le_total a.date.ms b.date.ms⟩

instance : IsTrans TradeRec dateLE :=
  ⟨fun _ _ _ => Nat.le_trans⟩

/-- Source lines 119-120: `sort_values` by the date column
(a stable sort by timestamp; for the row counts involved pandas'
sort is stable, and spec §3 describes the sort as stable). -/
def sortByDate (l : List TradeRec) : List TradeRec :=
  List.insertionSort dateLE l

/-- Source lines 123-128: each buy row becomes an open lot
`{timestamp, amount, unit_cost = total/amount}`. -/
def mkLot (b : TradeRec) : Lot :=
  ⟨b.date, b.amount, b.total / b.amount⟩

/-- The per-sell consumption loop, source lines 130-152: walk the open
queue front to back accumulating amounts while the running total is
strictly below the sell amount (`while asset_amount < sell_amount`);
`need` is the sell amount minus what the already-passed lots
contributed.  Returns the purchase price (cost basis accumulated in
queue order, the last touched lot contributing
`(amount - remainder) * unit_cost`), the purchase date attributed to
the disposal (the date of the **last** touched lot, line 139) and the
queue after removal (lines 148-152: the last lot is kept, shrunk to
`remainder`, iff `remainder > 0`).  Exhausting the queue is the pandas
`IndexError` of line 137. -/
def consumeLots : List Lot → ℚ → Except LedgerErr (ℚ × Date × List Lot)
  | [], _ => .error .indexOutOfBounds
  | l :: ls, need =>
    if l.amount < need then
      match consumeLots ls (need - l.amount) with
      | .error e => .error e
      | .ok (cost, d, rest) => .ok (l.amount * l.unitCost + cost, d, rest)
    else
      if 0 < l.amount - need then
        .ok (need * l.unitCost, l.date, { l with amount := l.amount - need } :: ls)
      else
        .ok (need * l.unitCost, l.date, ls)

/-- Source lines 153-160: the closed row emitted for one sell. -/
def mkClosedLot (purchaseDate : Date) (s : TradeRec) (cost : ℚ) : ClosedLot :=
  ⟨purchaseDate, s.date, get_days_between_dates purchaseDate s.date,
    s.amount, s.total - cost, cost, s.total⟩

/-- Source lines 129-160: process the (sorted) sell rows in order,
threading the open queue and appending to the closed log. -/
def matchSells : List Lot → List ClosedLot → List TradeRec →
    Except LedgerErr (List Lot × List ClosedLot)
  | opens, closed, [] => .ok (opens, closed)
  | opens, closed, s :: rest =>
    match consumeLots opens s.amount with
    | .error e => .error e
    | .ok (cost, d, opens') => matchSells opens' (closed ++ [mkClosedLot d s cost]) rest

/-- Source `CryptoLedger.calculate_position_from_history`
(lines 118-160): sort both histories by timestamp, seed the open queue
from the buys, then FIFO-match the sells. -/
def calculate_position_from_history (buy_history sell_history : List TradeRec) :
    Except LedgerErr (List Lot × List ClosedLot) :=
  matchSells ((sortByDate buy_history).map mkLot) [] (sortByDate sell_history)

/-- Total "Asset Amount" of an open-positions table. -/
def sumAmounts (l : List Lot) : ℚ := (l.map (fun x => x.amount)).sum

/-- Total "Asset Amount" of a closed-positions table. -/
def sumClosedAmounts (l : List ClosedLot) : ℚ := (l.map (fun c => c.amount)).sum

/-- Total "Asset Amount" of a trade history. -/
def sumBuyAmounts (l : List TradeRec) : ℚ := (l.map (fun r => r.amount)).sum

/-- Combined cost `amount * unit_cost` of a list of open lots. -/
def lotsCost (l : List Lot) : ℚ := (l.map (fun x => x.amount * x.unitCost)).sum

theorem consumeLots_sum {lots : List Lot} {need cost : ℚ} {d : Date} {rest : List Lot}
    (h : consumeLots lots need = .ok (cost, d, rest)) :
    sumAmounts rest = sumAmounts lots - need := by
  induction lots generalizing need cost d rest with
  | nil => simp [consumeLots] at h
  | cons l ls ih =>
    rw [consumeLots] at h
    by_cases h1 : l.amount < need
    · rw [if_pos h1] at h
      cases hc : consumeLots ls (need - l.amount) with
      | error e => rw [hc] at h; simp at h
      | ok v =>
        obtain ⟨c', d', rest'⟩ := v
        rw [hc] at h
        simp only [Except.ok.injEq, Prod.mk.injEq] at h
        obtain ⟨-, -, hrest⟩ := h
        have hsum := ih hc
        subst hrest
        simp only [sumAmounts, List.map_cons, List.sum_cons] at hsum ⊢
        linarith
    · rw [if_neg h1] at h
      by_cases h2 : 0 < l.amount - need
      · rw [if_pos h2] at h
        simp only [Except.ok.injEq, Prod.mk.injEq] at h
        obtain ⟨-, -, hrest⟩ := h
        subst hrest
        simp only [sumAmounts, List.map_cons, List.sum_cons]
        ring
      · rw [if_neg h2] at h
        simp only [Except.ok.injEq, Prod.mk.injEq] at h
        obtain ⟨-, -, hrest⟩ := h
        subst hrest
        have hle : need ≤ l.amount := not_lt.mp h1
        have hge : l.amount ≤ need := by linarith [not_lt.mp h2]
        simp only [sumAmounts, List.map_cons, List.sum_cons]
        linarith

theorem matchSells_sum :
    ∀ (sells : List TradeRec) (opens : List Lot) (closed : List ClosedLot)
      {op : List Lot} {cl : List ClosedLot},
      matchSells opens closed sells = .ok (op, cl) →
      sumAmounts op + sumClosedAmounts cl = sumAmounts opens + sumClosedAmounts closed := by
  intro sells
  induction sells with
  | nil =>
    intro opens closed op cl h
    rw [matchSells] at h
    simp only [Except.ok.injEq, Prod.mk.injEq] at h
    obtain ⟨h1, h2⟩ := h
    subst h1; subst h2; rfl
  | cons s rest ih =>
    intro opens closed op cl h
    rw [matchSells] at h
    cases hc : consumeLots opens s.amount with
    | error e => rw [hc] at h; simp at h
    | ok v =>
      obtain ⟨cost, d, opens'⟩ := v
      rw [hc] at h
      have h2 := ih opens' (closed ++ [mkClosedLot d s cost]) h
      have h3 := consumeLots_sum hc
      simp only [sumClosedAmounts, List.map_append, List.map_cons, List.map_nil,
        List.sum_append, List.sum_cons, List.sum_nil, mkClosedLot] at h2 ⊢
      linarith

theorem sumAmounts_mkLot (l : List TradeRec) :
    sumAmounts (l.map mkLot) = sumBuyAmounts l := by
  induction l with
  | nil => rfl
  | cons b t ih =>
    simp only [sumAmounts, sumBuyAmounts, List.map_cons, List.sum_cons, mkLot] at ih ⊢
    rw [ih]

theorem sumBuyAmounts_sortByDate (l : List TradeRec) :
    sumBuyAmounts (sortByDate l) = sumBuyAmounts l :=
  List.Perm.sum_eq (List.Perm.map _ (List.perm_insertionSort dateLE l))

/-- C1: for every buy/sell trade history (amounts positive, per the data
model) in which each sell can be covered by the lots accumulated before
it (i.e. `calculate_position_from_history` completes successfully), the
sum of amounts in the open-positions queue plus the sum of amounts in
the closed-positions log equals the sum of all buy amounts — exactly in
the rational model, hence in particular within the `1e-9` tolerance the
specification allows for floating point. -/
theorem conservation_of_amounts (buy_history sell_history : List TradeRec)
    (op : List Lot) (cl : List ClosedLot)
    (hb : ∀ b ∈ buy_history, 0 < b.amount)
    (hs : ∀ s ∈ sell_history, 0 < s.amount)
    (h : calculate_position_from_history buy_history sell_history = .ok (op, cl)) :
    sumAmounts op + sumClosedAmounts cl = sumBuyAmounts buy_history ∧
    |sumAmounts op + sumClosedAmounts cl - sumBuyAmounts buy_history| ≤ 1 / 1000000000 := by
  rw [calculate_position_from_history] at h
  have h1 := matchSells_sum (sortByDate sell_history)
    ((sortByDate buy_history).map mkLot) [] h
  rw [sumAmounts_mkLot, sumBuyAmounts_sortByDate] at h1
  have h2 : sumClosedAmounts [] = 0 := rfl
  constructor
  · rw [h1, h2]; ring
  · rw [h1, h2]
    simp

/-- Witness for C1 on a concrete two-buy, one-sell history. -/
theorem conservation_of_amounts_witness :
    (∀ b ∈ [TradeRec.mk ⟨0, 2022⟩ 2 20], 0 < b.amount) ∧
    (∀ s ∈ [TradeRec.mk ⟨86400000, 2022⟩ 1 15], 0 < s.amount) ∧
    ∃ op cl, calculate_position_from_history
        [TradeRec.mk ⟨0, 2022⟩ 2 20] [TradeRec.mk ⟨86400000, 2022⟩ 1 15] = .ok (op, cl) ∧
      sumAmounts op + sumClosedAmounts cl =
        sumBuyAmounts [TradeRec.mk ⟨0, 2022⟩ 2 20] := by
  refine ⟨by intro b hb; simp at hb; rw [hb]; norm_num,
          by intro s hs; simp at hs; rw [hs]; norm_num, ?_⟩
  have hcalc : calculate_position_from_history
      [TradeRec.mk ⟨0, 2022⟩ 2 20] [TradeRec.mk ⟨86400000, 2022⟩ 1 15] =
      .ok ([⟨⟨0, 2022⟩, 1, 10⟩], [⟨⟨0, 2022⟩, ⟨86400000, 2022⟩, 1, 1, 5, 10, 15⟩]) := by
    simp only [calculate_position_from_history, sortByDate, List.insertionSort,
      List.orderedInsert, matchSells, consumeLots, mkLot, mkClosedLot,
      get_days_between_dates]
    norm_num
  refine ⟨_, _, hcalc, ?_⟩
  exact (conservation_of_amounts _ _ _ _
    (by intro b hb; simp at hb; rw [hb]; norm_num)
    (by intro s hs; simp at hs; rw [hs]; norm_num) hcalc).1

theorem consumeLots_partial :
    ∀ (full : List Lot) (lk : Lot) (rest : List Lot) (need : ℚ),
      (∀ l ∈ full, 0 ≤ l.amount) →
      sumAmounts full < need → need ≤ sumAmounts full + lk.amount →
      consumeLots (full ++ lk :: rest) need =
        .ok (lotsCost full + (need - sumAmounts full) * lk.unitCost, lk.date,
          if 0 < sumAmounts full + lk.amount - need then
            { lk with amount := sumAmounts full + lk.amount - need } :: rest
          else rest) := by
  intro full
  induction full with
  | nil =>
    intro lk rest need _ h1 h2
    simp only [sumAmounts, List.map_nil, List.sum_nil] at h1 h2
    simp only [List.nil_append, sumAmounts, lotsCost, List.map_nil, List.sum_nil,
      zero_add, sub_zero]
    rw [consumeLots, if_neg (by linarith : ¬ lk.amount < need)]
    by_cases h3 : 0 < lk.amount - need
    · rw [if_pos h3, if_pos h3]
    · rw [if_neg h3, if_neg h3]
  | cons p full' ih =>
    intro lk rest need hpos h1 h2
    have hsum0 : 0 ≤ sumAmounts full' := by
      have : ∀ l ∈ full', 0 ≤ l.amount := fun l hl => hpos l (List.mem_cons_of_mem _ hl)
      unfold sumAmounts
      exact List.sum_nonneg (by
        intro x hx
        obtain ⟨l, hl, hxl⟩ := List.mem_map.mp hx
        exact hxl ▸ this l hl)
    have hsc : sumAmounts (p :: full') = p.amount + sumAmounts full' := by
      simp [sumAmounts]
    have hp : p.amount < need := by rw [hsc] at h1; linarith
    have h1' : sumAmounts full' < need - p.amount := by rw [hsc] at h1; linarith
    have h2' : need - p.amount ≤ sumAmounts full' + lk.amount := by rw [hsc] at h2; linarith
    have hrec := ih lk rest (need - p.amount)
      (fun l hl => hpos l (List.mem_cons_of_mem _ hl)) h1' h2'
    simp only [List.cons_append]
    rw [consumeLots, if_pos hp, hrec]
    have hcond : sumAmounts full' + lk.amount - (need - p.amount) =
        sumAmounts (p :: full') + lk.amount - need := by rw [hsc]; ring
    rw [hcond]
    have hcost : p.amount * p.unitCost +
        (lotsCost full' + (need - p.amount - sumAmounts full') * lk.unitCost) =
        lotsCost (p :: full') + (need - sumAmounts (p :: full')) * lk.unitCost := by
      simp only [lotsCost, List.map_cons, List.sum_cons, hsc]; ring
    dsimp only
    rw [hcost]

theorem consumeLots_oversell :
    ∀ (lots : List Lot) (need : ℚ), (∀ l ∈ lots, 0 ≤ l.amount) →
      sumAmounts lots < need → consumeLots lots need = .error .indexOutOfBounds := by
  intro lots
  induction lots with
  | nil => intro need _ _; rfl
  | cons l ls ih =>
    intro need hpos hlt
    have hsc : sumAmounts (l :: ls) = l.amount + sumAmounts ls := by simp [sumAmounts]
    have hsum0 : 0 ≤ sumAmounts ls := by
      unfold sumAmounts
      exact List.sum_nonneg (by
        intro x hx
        obtain ⟨a, ha, hxa⟩ := List.mem_map.mp hx
        exact hxa ▸ hpos a (List.mem_cons_of_mem _ ha))
    have h1 : l.amount < need := by rw [hsc] at hlt; linarith
    rw [consumeLots, if_pos h1,
      ih (need - l.amount) (fun x hx => hpos x (List.mem_cons_of_mem _ hx))
        (by rw [hsc] at hlt; linarith)]

/-- C2: when a sell consumes several open lots, the emitted closed lot's
cost basis is `amount * unit_cost` summed over every fully absorbed lot
plus `(amount - remainder) * unit_cost` of the last lot touched
(equivalently `(need - already accumulated) * unit_cost` there), and its
acquisition date is the timestamp of that last touched lot; and on buys
`[(t1,5,50), (t2,5,100)]` with sell `(t3, 7, proceeds 140)` the closed
lot has cost basis 90, profit 50, `acquired_at = t2`, and the queue
retains exactly one lot `{t2, amount 3, unit_cost 20}`. -/
theorem sell_cost_basis_and_last_lot_date :
    (∀ (full : List Lot) (lk : Lot) (rest : List Lot) (need : ℚ),
      (∀ l ∈ full, 0 ≤ l.amount) →
      sumAmounts full < need → need ≤ sumAmounts full + lk.amount →
      consumeLots (full ++ lk :: rest) need =
        .ok (lotsCost full + (need - sumAmounts full) * lk.unitCost, lk.date,
          if 0 < sumAmounts full + lk.amount - need then
            { lk with amount := sumAmounts full + lk.amount - need } :: rest
          else rest)) ∧
    calculate_position_from_history
      [TradeRec.mk ⟨0, 2022⟩ 5 50, TradeRec.mk ⟨86400000, 2022⟩ 5 100]
      [TradeRec.mk ⟨172800000, 2022⟩ 7 140] =
      .ok ([⟨⟨86400000, 2022⟩, 3, 20⟩],
           [⟨⟨86400000, 2022⟩, ⟨172800000, 2022⟩, 1, 7, 50, 90, 140⟩]) := by
  constructor
  · exact consumeLots_partial
  · simp only [calculate_position_from_history, sortByDate, List.insertionSort,
      List.orderedInsert, matchSells, consumeLots, mkLot, mkClosedLot,
      get_days_between_dates, dateLE]
    norm_num

/-- Witness for C2's general clause at a concrete input. -/
theorem sell_cost_basis_and_last_lot_date_witness :
    consumeLots [⟨⟨0, 2022⟩, 5, 10⟩, ⟨⟨86400000, 2022⟩, 5, 20⟩] 7 =
      .ok (90, ⟨86400000, 2022⟩, [⟨⟨86400000, 2022⟩, 3, 20⟩]) := by
  have h := sell_cost_basis_and_last_lot_date.1
    [⟨⟨0, 2022⟩, 5, 10⟩] ⟨⟨86400000, 2022⟩, 5, 20⟩ [] 7
    (by intro l hl; simp only [List.mem_singleton] at hl; rw [hl]; norm_num)
    (by norm_num [sumAmounts]) (by norm_num [sumAmounts])
  simp only [List.singleton_append] at h
  rw [h]
  norm_num [sumAmounts, lotsCost]

/-- C3 counterexample: selling more than was ever acquired does not
produce an `InsufficientLots` failure — the computation stops with the
pandas index error raised when `aggregator_index` runs past the end of
the open-positions index (ledger.py line 137). -/
theorem oversell_error_kind_counterexample :
    calculate_position_from_history [] [TradeRec.mk ⟨0, 2022⟩ 1 10] =
      .error .indexOutOfBounds ∧
    calculate_position_from_history [] [TradeRec.mk ⟨0, 2022⟩ 1 10] ≠
      .error .insufficientLots := by
  refine ⟨rfl, ?_⟩
  intro h
  rw [show calculate_position_from_history [] [TradeRec.mk ⟨0, 2022⟩ 1 10] =
    Except.error LedgerErr.indexOutOfBounds from rfl] at h
  exact LedgerErr.noConfusion (Except.error.inj h)

/-- C3 (amended): for every sell record whose amount exceeds the total
amount still available in the open-lot queue (amounts nonnegative per
the data model), `calculate_position_from_history` fails with the
undefined-index/out-of-bounds failure (`IndexError` at ledger.py line
137); the source never produces an `InsufficientLots` error kind. -/
theorem oversell_fails_with_index_error (lots : List Lot) (closed : List ClosedLot)
    (s : TradeRec) (rest : List TradeRec) (buys : List TradeRec)
    (hpos : ∀ l ∈ lots, 0 ≤ l.amount) (hlt : sumAmounts lots < s.amount)
    (hbpos : ∀ b ∈ buys, 0 ≤ b.amount) (hblt : sumBuyAmounts buys < s.amount) :
    matchSells lots closed (s :: rest) = .error .indexOutOfBounds ∧
    calculate_position_from_history buys [s] = .error .indexOutOfBounds := by
  constructor
  · rw [matchSells, consumeLots_oversell lots s.amount hpos hlt]
  · rw [calculate_position_from_history,
      show sortByDate [s] = [s] from rfl, matchSells,
      consumeLots_oversell _ s.amount
        (by
          intro l hl
          obtain ⟨b, hb, hbl⟩ := List.mem_map.mp hl
          rw [← hbl]
          exact hbpos b ((List.perm_insertionSort dateLE buys).mem_iff.mp hb))
        (by rw [sumAmounts_mkLot, sumBuyAmounts_sortByDate]; exact hblt)]

/-- Witness for C3's amended theorem on a concrete over-sell. -/
theorem oversell_fails_with_index_error_witness :
    matchSells [⟨⟨0, 2022⟩, 1, 10⟩] [] [TradeRec.mk ⟨0, 2022⟩ 2 30] =
      .error .indexOutOfBounds ∧
    calculate_position_from_history [TradeRec.mk ⟨0, 2022⟩ 1 10]
      [TradeRec.mk ⟨0, 2022⟩ 2 30] = .error .indexOutOfBounds := by
  exact oversell_fails_with_index_error [⟨⟨0, 2022⟩, 1, 10⟩] [] (TradeRec.mk ⟨0, 2022⟩ 2 30)
    [] [TradeRec.mk ⟨0, 2022⟩ 1 10]
    (by intro l hl; simp only [List.mem_singleton] at hl; rw [hl]; norm_num)
    (by norm_num [sumAmounts])
    (by intro b hb; simp only [List.mem_singleton] at hb; rw [hb]; norm_num)
    (by norm_num [sumBuyAmounts])

theorem sorted_eq_of_perm_of_nodup_keys :
    ∀ (l1 l2 : List TradeRec), l1.Perm l2 →
      l1.Sorted dateLE → l2.Sorted dateLE →
      (l1.map (fun r => r.date.ms)).Nodup → l1 = l2 := by
  intro l1
  induction l1 with
  | nil =>
    intro l2 hp _ _ _
    exact (hp.symm.eq_nil).symm
  | cons a t1 ih =>
    intro l2 hp hs1 hs2 hnd
    cases l2 with
    | nil => exact absurd hp.eq_nil (by simp)
    | cons b t2 =>
      have hab : a = b := by
        by_contra hne
        have ha2 : a ∈ b :: t2 := hp.subset (List.mem_cons_self a t1)
        have hb1 : b ∈ a :: t1 := hp.symm.subset (List.mem_cons_self b t2)
        have ha : a ∈ t2 := by
          rcases List.mem_cons.mp ha2 with h | h
          · exact absurd h hne
          · exact h
        have hb : b ∈ t1 := by
          rcases List.mem_cons.mp hb1 with h | h
          · exact absurd h.symm hne
          · exact h
        have h1 : dateLE a b := List.rel_of_sorted_cons hs1 b hb
        have h2 : dateLE b a := List.rel_of_sorted_cons hs2 a ha
        have heq : b.date.ms = a.date.ms := le_antisymm h2 h1
        have hmem : a.date.ms ∈ t1.map (fun r => r.date.ms) :=
          List.mem_map.mpr ⟨b, hb, heq⟩
        exact (List.nodup_cons.mp hnd).1 hmem
      subst hab
      have hpt : t1.Perm t2 := hp.cons_inv
      rw [ih t2 hpt hs1.of_cons hs2.of_cons (List.nodup_cons.mp hnd).2]

theorem sortByDate_eq_of_perm (l l' : List TradeRec) (h : l'.Perm l)
    (hnd : (l.map (fun r => r.date.ms)).Nodup) :
    sortByDate l' = sortByDate l := by
  apply sorted_eq_of_perm_of_nodup_keys
  · exact ((List.perm_insertionSort dateLE l').trans h).trans
      (List.perm_insertionSort dateLE l).symm
  · exact List.sorted_insertionSort dateLE l'
  · exact List.sorted_insertionSort dateLE l
  · exact (List.Perm.nodup_iff
      (((List.perm_insertionSort dateLE l').trans h).map (fun r => r.date.ms))).mpr hnd

/-- C8 (amended): matching results are invariant to input row order
provided the timestamps within each history are pairwise distinct: the
sort then determines a unique chronological order, so every permutation
of either history yields identical open-positions and closed-positions
tables.  (With duplicate timestamps the sort is stable, so reordering
equal-timestamp rows changes the matching result — see the
counterexample.) -/
theorem order_independence (buys buys' sells sells' : List TradeRec)
    (hb : buys'.Perm buys) (hs : sells'.Perm sells)
    (hbnd : (buys.map (fun r => r.date.ms)).Nodup)
    (hsnd : (sells.map (fun r => r.date.ms)).Nodup) :
    calculate_position_from_history buys' sells' =
      calculate_position_from_history buys sells := by
  unfold calculate_position_from_history
  rw [sortByDate_eq_of_perm buys buys' hb hbnd,
    sortByDate_eq_of_perm sells sells' hs hsnd]

/-- Witness for C8's amended theorem on a concrete permuted history. -/
theorem order_independence_witness :
    calculate_position_from_history
      [TradeRec.mk ⟨86400000, 2022⟩ 5 100, TradeRec.mk ⟨0, 2022⟩ 5 50]
      [TradeRec.mk ⟨172800000, 2022⟩ 7 140] =
    calculate_position_from_history
      [TradeRec.mk ⟨0, 2022⟩ 5 50, TradeRec.mk ⟨86400000, 2022⟩ 5 100]
      [TradeRec.mk ⟨172800000, 2022⟩ 7 140] := by
  exact order_independence _ _ _ _
    (List.Perm.swap (TradeRec.mk ⟨0, 2022⟩ 5 50) (TradeRec.mk ⟨86400000, 2022⟩ 5 100) [])
    (List.Perm.refl _) (by simp) (by simp)

/-- C8 counterexample: with two buys sharing one timestamp, the stable
sort keeps their insertion order, so permuting them changes both the
open queue and the closed log — the matching result is not invariant
under every permutation of the input rows. -/
theorem order_independence_counterexample :
    ([TradeRec.mk ⟨0, 2022⟩ 1 20, TradeRec.mk ⟨0, 2022⟩ 1 10]).Perm
      [TradeRec.mk ⟨0, 2022⟩ 1 10, TradeRec.mk ⟨0, 2022⟩ 1 20] ∧
    calculate_position_from_history
        [TradeRec.mk ⟨0, 2022⟩ 1 20, TradeRec.mk ⟨0, 2022⟩ 1 10]
        [TradeRec.mk ⟨86400000, 2022⟩ 1 30] ≠
      calculate_position_from_history
        [TradeRec.mk ⟨0, 2022⟩ 1 10, TradeRec.mk ⟨0, 2022⟩ 1 20]
        [TradeRec.mk ⟨86400000, 2022⟩ 1 30] := by
  constructor
  · exact List.Perm.swap (TradeRec.mk ⟨0, 2022⟩ 1 10) (TradeRec.mk ⟨0, 2022⟩ 1 20) []
  · have e1 : calculate_position_from_history
        [TradeRec.mk ⟨0, 2022⟩ 1 20, TradeRec.mk ⟨0, 2022⟩ 1 10]
        [TradeRec.mk ⟨86400000, 2022⟩ 1 30] =
        .ok ([⟨⟨0, 2022⟩, 1, 10⟩],
             [⟨⟨0, 2022⟩, ⟨86400000, 2022⟩, 1, 1, 10, 20, 30⟩]) := by
      simp only [calculate_position_from_history, sortByDate, List.insertionSort,
        List.orderedInsert, matchSells, consumeLots, mkLot, mkClosedLot,
        get_days_between_dates, dateLE]
      norm_num [mkLot]
    have e2 : calculate_position_from_history
        [TradeRec.mk ⟨0, 2022⟩ 1 10, TradeRec.mk ⟨0, 2022⟩ 1 20]
        [TradeRec.mk ⟨86400000, 2022⟩ 1 30] =
        .ok ([⟨⟨0, 2022⟩, 1, 20⟩],
             [⟨⟨0, 2022⟩, ⟨86400000, 2022⟩, 1, 1, 20, 10, 30⟩]) := by
      simp only [calculate_position_from_history, sortByDate, List.insertionSort,
        List.orderedInsert, matchSells, consumeLots, mkLot, mkClosedLot,
        get_days_between_dates, dateLE]
      norm_num [mkLot]
    intro h
    rw [e1, e2] at h
    simp only [Except.ok.injEq, Prod.mk.injEq, List.cons.injEq, Lot.mk.injEq,
      ClosedLot.mk.injEq] at h
    norm_num at h

/-- `CryptoLedger.TAX_ALLOWANCE` (ledger.py line 105). -/
def TAX_ALLOWANCE : ℚ := 600

/-- Source `CryptoLedger.get_taxable_profit` (lines 228-233): filter the
closed positions to rows whose sell date string starts with `str(year)`
(for "YYYY-MM-DD HH:MM:SS" strings and 4-digit years: whose year equals
the given year) and whose holding time is at most 365 days, and sum
their "Profit/Loss (EUR)" column. -/
def get_taxable_profit (closed_positions : List ClosedLot) (year : ℤ) : ℚ :=
  ((closed_positions.filter (fun c =>
    decide (c.sellDate.year = year ∧ c.holdingDays ≤ 365))).map (fun c => c.profit)).sum

/-- C4: `get_taxable_profit year` sums the profit over exactly those
closed lots disposed in the given year with holding period at most 365
days: appending a lot held more than 365 days, or disposed in a
different year, never changes the result; appending an included lot
adds exactly its profit, and an included negative profit strictly
reduces the total (no loss ring-fencing). -/
theorem taxable_profit_filter (closed : List ClosedLot) (year : ℤ) :
    (∀ c : ClosedLot, 365 < c.holdingDays →
      get_taxable_profit (closed ++ [c]) year = get_taxable_profit closed year) ∧
    (∀ c : ClosedLot, c.sellDate.year ≠ year →
      get_taxable_profit (closed ++ [c]) year = get_taxable_profit closed year) ∧
    (∀ c : ClosedLot, c.sellDate.year = year → c.holdingDays ≤ 365 →
      get_taxable_profit (closed ++ [c]) year = get_taxable_profit closed year + c.profit) ∧
    (∀ c : ClosedLot, c.sellDate.year = year → c.holdingDays ≤ 365 → c.profit < 0 →
      get_taxable_profit (closed ++ [c]) year < get_taxable_profit closed year) := by
  have key : ∀ c : ClosedLot, get_taxable_profit (closed ++ [c]) year =
      get_taxable_profit closed year +
      (if c.sellDate.year = year ∧ c.holdingDays ≤ 365 then c.profit else 0) := by
    intro c
    unfold get_taxable_profit
    rw [List.filter_append]
    by_cases hc : c.sellDate.year = year ∧ c.holdingDays ≤ 365
    · simp [hc]
    · simp [hc]
  refine ⟨?_, ?_, ?_, ?_⟩
  · intro c hc
    rw [key c, if_neg (by intro h; linarith [h.2]), add_zero]
  · intro c hc
    rw [key c, if_neg (by intro h; exact hc h.1), add_zero]
  · intro c h1 h2
    rw [key c, if_pos ⟨h1, h2⟩]
  · intro c h1 h2 h3
    rw [key c, if_pos ⟨h1, h2⟩]
    linarith

/-- Witness for C4 on a concrete closed log. -/
theorem taxable_profit_filter_witness :
    (365:ℚ) < 400 ∧
    get_taxable_profit
        [⟨⟨0, 2021⟩, ⟨86400000, 2022⟩, 1, 2, 7, 10, 17⟩,
         ⟨⟨0, 2021⟩, ⟨86400000, 2022⟩, 400, 1, 9, 10, 19⟩] 2022 =
      get_taxable_profit [⟨⟨0, 2021⟩, ⟨86400000, 2022⟩, 1, 2, 7, 10, 17⟩] 2022 := by
  refine ⟨by norm_num, ?_⟩
  exact (taxable_profit_filter [⟨⟨0, 2021⟩, ⟨86400000, 2022⟩, 1, 2, 7, 10, 17⟩] 2022).1
    ⟨⟨0, 2021⟩, ⟨86400000, 2022⟩, 400, 1, 9, 10, 19⟩ (by norm_num)

/-- The unrealized profit of one open lot at the current change factor:
`total_amount * factor - purchase_price` with
`purchase_price = amount * unit_cost` (ledger.py lines 245-249). -/
def potentialProfit (factor : ℚ) (l : Lot) : ℚ :=
  l.amount * factor - l.amount * l.unitCost

/-- The long-term test of ledger.py line 242:
`get_days_between_dates(current_time, lot_date) > 365`. -/
def isLong (now : Date) (l : Lot) : Bool :=
  decide (365 < get_days_between_dates now l.date)

/-- The loop of `CryptoLedger.get_tax_free_amount` (ledger.py lines
241-257) over the open positions, threading the three accumulators
`generally_tax_free`, `still_tax_free` and `new_profit`.  A lot held
more than 365 days adds its amount to `generally_tax_free`; otherwise,
while `profit_so_far + new_profit + potential_profit < TAX_ALLOWANCE`
the full amount is added to `still_tax_free`; the first lot meeting or
exceeding the allowance contributes
`still_allowed / (factor - purchase_factor)` (a Python
`ZeroDivisionError` when `factor` equals the unit cost), caps
`new_profit` at `still_allowed`, and `break`s. -/
def taxFreeLoop (factor profit_so_far : ℚ) (now : Date) :
    List Lot → ℚ → ℚ → ℚ → Except LedgerErr (ℚ × ℚ × ℚ)
  | [], generally, still, newp => .ok (generally, still, newp)
  | l :: ls, generally, still, newp =>
    if isLong now l then
      taxFreeLoop factor profit_so_far now ls (generally + l.amount) still newp
    else
      if profit_so_far + newp + potentialProfit factor l < TAX_ALLOWANCE then
        taxFreeLoop factor profit_so_far now ls generally (still + l.amount)
          (newp + potentialProfit factor l)
      else
        if factor - l.unitCost = 0 then .error .zeroDivision
        else
          .ok (generally,
            still + (TAX_ALLOWANCE - profit_so_far - newp) / (factor - l.unitCost),
            newp + (TAX_ALLOWANCE - profit_so_far - newp))

/-- Source `CryptoLedger.get_tax_free_amount` (lines 235-263): run the
loop with zeroed accumulators over the open positions (the current
change factor and current time are the external inputs the method reads
from the price feed and the clock) and return `still_tax_free`. -/
def get_tax_free_amount (open_positions : List Lot) (factor profit_so_far : ℚ)
    (now : Date) : Except LedgerErr ℚ :=
  match taxFreeLoop factor profit_so_far now open_positions 0 0 0 with
  | .error e => .error e
  | .ok (_, still, _) => .ok still

theorem taxFreeLoop_total (factor psf : ℚ) (now : Date) :
    ∀ (lots : List Lot), (∀ l ∈ lots, isLong now l = false → factor - l.unitCost ≠ 0) →
      ∀ (g s n : ℚ), ∃ t, taxFreeLoop factor psf now lots g s n = .ok t := by
  intro lots
  induction lots with
  | nil => intro _ g s n; exact ⟨(g, s, n), rfl⟩
  | cons l ls ih =>
    intro h g s n
    rw [taxFreeLoop]
    by_cases h1 : isLong now l
    · rw [if_pos h1]
      exact ih (fun x hx => h x (List.mem_cons_of_mem _ hx)) _ _ _
    · rw [if_neg h1]
      by_cases h2 : psf + n + potentialProfit factor l < TAX_ALLOWANCE
      · rw [if_pos h2]
        exact ih (fun x hx => h x (List.mem_cons_of_mem _ hx)) _ _ _
      · rw [if_neg h2,
          if_neg (h l (List.mem_cons_self l ls) (Bool.eq_false_iff.mpr h1))]
        exact ⟨_, rfl⟩

/-- C10 (amended): `get_tax_free_amount` returns without error for
every open-positions state, current rate and `profit_so_far`, provided
the current rate differs from the unit cost of every short-term open
lot; when the rate equals the unit cost of the lot on which the
partial-allocation branch is reached, the divisor
`factor - purchase_factor` is zero and the call fails with the division
by zero of ledger.py line 255 (see the counterexample). -/
theorem tax_free_amount_total (lots : List Lot) (factor psf : ℚ) (now : Date)
    (h : ∀ l ∈ lots, isLong now l = false → factor - l.unitCost ≠ 0) :
    ∃ q, get_tax_free_amount lots factor psf now = .ok q := by
  obtain ⟨⟨g, still, n⟩, ht⟩ := taxFreeLoop_total factor psf now lots h 0 0 0
  exact ⟨still, by rw [get_tax_free_amount, ht]⟩

/-- Witness for C10's amended theorem. -/
theorem tax_free_amount_total_witness :
    ∃ q, get_tax_free_amount [⟨⟨0, 2022⟩, 1, 10⟩] 12 600 ⟨0, 2022⟩ = .ok q := by
  apply tax_free_amount_total
  intro l hl _
  simp only [List.mem_singleton] at hl
  rw [hl]
  norm_num

/-- C10 counterexample: an open lot with positive amount and unit cost,
a strictly positive current rate equal to that unit cost, and
`profit_so_far = 600` reach the partial-allocation branch with divisor
`factor - unit_cost = 0`: the call fails with a division by zero
instead of returning. -/
theorem tax_free_amount_div_zero_counterexample :
    (0:ℚ) < 1 ∧ (0:ℚ) < 10 ∧
    get_tax_free_amount [⟨⟨0, 2022⟩, 1, 10⟩] 10 600 ⟨0, 2022⟩ =
      .error .zeroDivision := by
  refine ⟨by norm_num, by norm_num, ?_⟩
  simp only [get_tax_free_amount, taxFreeLoop, isLong, potentialProfit,
    get_days_between_dates, TAX_ALLOWANCE]
  norm_num

/-- The short-term open lots, in queue order. -/
def shortLots (now : Date) (ls : List Lot) : List Lot :=
  ls.filter (fun l => ! isLong now l)

/-- The long-term open lots, in queue order. -/
def longLots (now : Date) (ls : List Lot) : List Lot :=
  ls.filter (fun l => isLong now l)

/-- Combined unrealized profit of a list of open lots. -/
def sumPot (factor : ℚ) (ls : List Lot) : ℚ :=
  (ls.map (potentialProfit factor)).sum

theorem shortLots_cons_short {now : Date} {p : Lot} (ls : List Lot)
    (hp : isLong now p = false) :
    shortLots now (p :: ls) = p :: shortLots now ls := by
  simp [shortLots, List.filter_cons, hp]

theorem shortLots_cons_long {now : Date} {p : Lot} (ls : List Lot)
    (hp : isLong now p = true) :
    shortLots now (p :: ls) = shortLots now ls := by
  simp [shortLots, List.filter_cons, hp]

theorem longLots_cons_short {now : Date} {p : Lot} (ls : List Lot)
    (hp : isLong now p = false) :
    longLots now (p :: ls) = longLots now ls := by
  simp [longLots, List.filter_cons, hp]

theorem longLots_cons_long {now : Date} {p : Lot} (ls : List Lot)
    (hp : isLong now p = true) :
    longLots now (p :: ls) = p :: longLots now ls := by
  simp [longLots, List.filter_cons, hp]

theorem taxFreeLoop_saturate (factor psf : ℚ) (now : Date) (l : Lot) (post : List Lot)
    (hshort : isLong now l = false) (hdiv : factor - l.unitCost ≠ 0) :
    ∀ (pre : List Lot) (g s n : ℚ),
      (∀ i (hi : i < pre.length), isLong now (pre.get ⟨i, hi⟩) = false →
        psf + n + sumPot factor (shortLots now (pre.take i)) +
          potentialProfit factor (pre.get ⟨i, hi⟩) < TAX_ALLOWANCE) →
      ¬ (psf + n + sumPot factor (shortLots now pre) + potentialProfit factor l <
          TAX_ALLOWANCE) →
      taxFreeLoop factor psf now (pre ++ l :: post) g s n =
        .ok (g + sumAmounts (longLots now pre),
          s + sumAmounts (shortLots now pre) +
            (TAX_ALLOWANCE - psf - n - sumPot factor (shortLots now pre)) /
              (factor - l.unitCost),
          n + sumPot factor (shortLots now pre) +
            (TAX_ALLOWANCE - psf - n - sumPot factor (shortLots now pre))) := by
  intro pre
  induction pre with
  | nil =>
    intro g s n _ hsat
    simp only [shortLots, longLots, List.filter_nil, sumPot, sumAmounts, List.map_nil,
      List.sum_nil, add_zero, sub_zero, List.nil_append] at hsat ⊢
    rw [taxFreeLoop, if_neg (by simp [hshort]), if_neg hsat, if_neg hdiv]
  | cons p pre' ih =>
    intro g s n hpre hsat
    rw [List.cons_append, taxFreeLoop]
    by_cases hp : isLong now p = true
    · rw [if_pos (by simp [hp])]
      have hpre' : ∀ i (hi : i < pre'.length), isLong now (pre'.get ⟨i, hi⟩) = false →
          psf + n + sumPot factor (shortLots now (pre'.take i)) +
            potentialProfit factor (pre'.get ⟨i, hi⟩) < TAX_ALLOWANCE := by
        intro i hi hs_i
        have h := hpre (i + 1) (by simpa using Nat.succ_lt_succ hi) (by simpa using hs_i)
        rw [List.take_succ_cons, shortLots_cons_long _ hp] at h
        simpa using h
      have hsat' : ¬ (psf + n + sumPot factor (shortLots now pre') +
          potentialProfit factor l < TAX_ALLOWANCE) := by
        rw [shortLots_cons_long _ hp] at hsat
        exact hsat
      rw [ih (g + p.amount) s n hpre' hsat']
      rw [shortLots_cons_long _ hp, longLots_cons_long _ hp]
      simp only [Except.ok.injEq, Prod.mk.injEq, sumAmounts, List.map_cons, List.sum_cons]
      exact ⟨by ring, trivial⟩
    · have hp' : isLong now p = false := Bool.eq_false_iff.mpr hp
      rw [if_neg (by simp [hp'])]
      have h0 := hpre 0 (by simp) (by simpa using hp')
      have h0' : psf + n + potentialProfit factor p < TAX_ALLOWANCE := by
        simpa [shortLots, sumPot] using h0
      rw [if_pos h0']
      have hpre' : ∀ i (hi : i < pre'.length), isLong now (pre'.get ⟨i, hi⟩) = false →
          psf + (n + potentialProfit factor p) +
            sumPot factor (shortLots now (pre'.take i)) +
            potentialProfit factor (pre'.get ⟨i, hi⟩) < TAX_ALLOWANCE := by
        intro i hi hs_i
        have h := hpre (i + 1) (by simpa using Nat.succ_lt_succ hi) (by simpa using hs_i)
        rw [List.take_succ_cons, shortLots_cons_short _ hp'] at h
        simp only [List.get_cons_succ, sumPot, List.map_cons, List.sum_cons] at h
        simp only [sumPot]
        linarith
      have hsat' : ¬ (psf + (n + potentialProfit factor p) +
          sumPot factor (shortLots now pre') + potentialProfit factor l <
            TAX_ALLOWANCE) := by
        rw [shortLots_cons_short _ hp'] at hsat
        simp only [sumPot, List.map_cons, List.sum_cons] at hsat
        intro hcon
        apply hsat
        simp only [sumPot] at hcon
        linarith
      rw [ih g (s + p.amount) (n + potentialProfit factor p) hpre' hsat']
      rw [shortLots_cons_short _ hp', longLots_cons_short _ hp']
      simp only [Except.ok.injEq, Prod.mk.injEq, sumAmounts, sumPot, List.map_cons,
        List.sum_cons]
      refine ⟨by ring, by ring, by ring⟩

/-- C5: walking the open lots oldest first, the first short-term lot
whose potential profit makes `profit_so_far` plus the accumulated new
profit reach or exceed the 600 allowance is included only partially:
`get_tax_free_amount` returns the full amounts of the earlier
short-term lots plus
`(600 - profit_so_far - accumulated new profit) / (current_rate - unit_cost)`
for that lot (the accumulated new profit being capped at the remaining
allowance inside the loop), and no later lot is evaluated — the result
does not depend on `post`.  With `profit_so_far = 590` and one open lot
of potential profit 50, the tax-free amount is `10/50` of the lot's
amount (see the witness). -/
theorem tax_free_partial_allocation (factor psf : ℚ) (now : Date) (l : Lot)
    (post : List Lot) (pre : List Lot)
    (hshort : isLong now l = false) (hdiv : factor - l.unitCost ≠ 0)
    (hpre : ∀ i (hi : i < pre.length), isLong now (pre.get ⟨i, hi⟩) = false →
      psf + sumPot factor (shortLots now (pre.take i)) +
        potentialProfit factor (pre.get ⟨i, hi⟩) < TAX_ALLOWANCE)
    (hsat : ¬ (psf + sumPot factor (shortLots now pre) + potentialProfit factor l <
      TAX_ALLOWANCE)) :
    get_tax_free_amount (pre ++ l :: post) factor psf now =
      .ok (sumAmounts (shortLots now pre) +
        (TAX_ALLOWANCE - psf - sumPot factor (shortLots now pre)) /
          (factor - l.unitCost)) := by
  have h := taxFreeLoop_saturate factor psf now l post hshort hdiv pre 0 0 0
    (by intro i hi hs_i; have := hpre i hi hs_i; linarith)
    (by intro hcon; apply hsat; linarith)
  rw [get_tax_free_amount, h]
  norm_num

/-- Witness for C5: `profit_so_far = 590`, one open lot of amount 5,
unit cost 10, current rate 20 (potential profit 50): the tax-free
amount is 1, which is `10/50` of the lot's amount. -/
theorem tax_free_partial_allocation_witness :
    get_tax_free_amount [⟨⟨0, 2022⟩, 5, 10⟩] 20 590 ⟨0, 2022⟩ = .ok 1 ∧
    (1 : ℚ) = 10 / 50 * 5 := by
  constructor
  · have h := tax_free_partial_allocation 20 590 ⟨0, 2022⟩ ⟨⟨0, 2022⟩, 5, 10⟩ [] []
      (by simp [isLong, get_days_between_dates])
      (by norm_num)
      (by intro i hi; simp at hi)
      (by norm_num [sumPot, shortLots, potentialProfit, TAX_ALLOWANCE])
    simp only [List.nil_append] at h
    rw [h]
    norm_num [sumAmounts, shortLots, sumPot, TAX_ALLOWANCE]
  · norm_num

/-- Price providers, in the iteration order of `PriceFeed.clients`
(ledger.py lines 19-20; a Python dict iterates in insertion order:
binance first, then kucoin). -/
inductive Provider
  | binance
  | kucoin
  deriving DecidableEq

/-- Asset, currency and symbol names are modelled as lists of character
codes (the source only concatenates them, compares them for equality or
membership, and calls `startswith`). -/
abbrev Symb := List ℕ

/-- Character codes of "BUSD". -/
def BUSD : Symb := [66, 85, 83, 68]

/-- Character codes of "USDT". -/
def USDT : Symb := [85, 83, 68, 84]

/-- `PriceFeed.FALLBACK_CURRENCY` (ledger.py lines 15-16). -/
def FALLBACK_CURRENCY : Provider → Symb
  | .binance => BUSD
  | .kucoin => USDT

/-- `PriceFeed.symbol_delimiter` (ledger.py lines 25-26): the empty
string for binance and "-" (code 45) for kucoin. -/
def symbol_delimiter : Provider → Symb
  | .binance => []
  | .kucoin => [45]

/-- The external world the price feed talks to: which symbols each
provider lists (`PriceFeed.symbols`), the spot price a ticker call
returns (`none` models the API returning no values, the raise at
line 89), and the kline rows a historical query returns, already
projected to the open price `row[1]` and in the order the API returns
them; the two numeric arguments are the window bounds exactly as the
source passes them to the provider. -/
structure PriceEnv where
  symbols : Provider → Symb → Bool
  currentPrice : Provider → Symb → Option ℚ
  kline : Provider → Symb → ℕ → ℕ → List ℚ

/-- Failure kinds of `PriceFeed`: `rateNotFound` is the raise at
ledger.py line 58 ("No symbol defined for combination ..."),
`noHistoricalData` the raise at line 76 (empty kline), `noApiData` the
raise at line 89 (falsy ticker), `invalidPrice` the raise at line 56
(falsy — i.e. zero — resolved price), and `fuelExhausted` marks a
recursion depth the source can never reach (the fallback recursion is
bounded by the fallback-currency guards). -/
inductive PriceErr
  | rateNotFound
  | noHistoricalData
  | noApiData
  | invalidPrice
  | fuelExhausted
  deriving DecidableEq

/-- Source `PriceFeed.get_historical_symbol_price` (lines 62-77):
request the kline window from `date_ms - 60000` to `date_ms` (kucoin
receives the bounds divided to seconds) and return the first returned
row's open price; an empty kline is the `ValueError` of line 76. -/
def get_historical_symbol_price (env : PriceEnv) (p : Provider) (symbol : Symb)
    (dateMs : ℕ) : Except PriceErr ℚ :=
  match (match p with
    | .binance => env.kline p symbol (dateMs - 60000) dateMs
    | .kucoin => env.kline p symbol ((dateMs - 60000) / 1000) (dateMs / 1000)) with
  | [] => .error .noHistoricalData
  | x :: _ => .ok x

/-- Source `PriceFeed.get_current_symbol_price` (lines 79-89): return
the ticker price; a falsy ticker is the `ValueError` of line 89. -/
def get_current_symbol_price (env : PriceEnv) (p : Provider) (symbol : Symb) :
    Except PriceErr ℚ :=
  match env.currentPrice p symbol with
  | none => .error .noApiData
  | some q => .ok q

/-- Lines 45-56 of `get_change_factor`: fetch the price of a found
symbol (historical when a date is given, spot otherwise); a zero price
is falsy in Python and raises at line 56; otherwise the rate is
inverted iff the symbol starts with the currency. -/
def resolveSymbolPrice (env : PriceEnv) (p : Provider) (symbol currency : Symb)
    (date : Option ℕ) : Except PriceErr ℚ :=
  match (match date with
    | some t => get_historical_symbol_price env p symbol t
    | none => get_current_symbol_price env p symbol) with
  | .error e => .error e
  | .ok price =>
    if price = 0 then .error .invalidPrice
    else if currency.isPrefixOf symbol then .ok (1 / price)
    else .ok price

/-- One iteration of the provider loop of `get_change_factor` (lines
30-56): check the currency-led then the asset-led symbol; if neither is
listed and neither side is this provider's fallback currency, resolve
the two bridge legs recursively (probe mode, the second leg pinned to
binance, line 42) and return their product when both produced a rate
(`-1` is the probe-mode "no rate" sentinel); `.ok none` means control
falls through to the next provider. -/
def try_provider (env : PriceEnv)
    (recur : Symb → Symb → Option ℕ → Bool → Option Provider → Except PriceErr ℚ)
    (p : Provider) (asset currency : Symb) (date : Option ℕ) :
    Except PriceErr (Option ℚ) :=
  if env.symbols p (currency ++ symbol_delimiter p ++ asset) then
    match resolveSymbolPrice env p (currency ++ symbol_delimiter p ++ asset) currency date with
    | .error e => .error e
    | .ok r => .ok (some r)
  else if env.symbols p (asset ++ symbol_delimiter p ++ currency) then
    match resolveSymbolPrice env p (asset ++ symbol_delimiter p ++ currency) currency date with
    | .error e => .error e
    | .ok r => .ok (some r)
  else if currency ≠ FALLBACK_CURRENCY p ∧ asset ≠ FALLBACK_CURRENCY p then
    match recur asset (FALLBACK_CURRENCY p) date false (some p) with
    | .error e => .error e
    | .ok a2f =>
      match recur (FALLBACK_CURRENCY p) currency date false (some .binance) with
      | .error e => .error e
      | .ok f2c =>
        if a2f ≠ -1 ∧ f2c ≠ -1 then .ok (some (a2f * f2c)) else .ok none
  else .ok none

/-- Fuelled embedding of `PriceFeed.get_change_factor` (lines 28-60):
loop over the providers in order, skipping those filtered out by
`force_provider` (`if not force_provider or force_provider == provider`,
line 31); a provider returning a rate ends the call, an exception
propagates, and if every provider falls through the call raises
"No symbol defined" when `die_on_failure` else returns the `-1`
sentinel (lines 57-60). -/
def get_change_factor_fuel (env : PriceEnv) :
    ℕ → Symb → Symb → Option ℕ → Bool → Option Provider → Except PriceErr ℚ
  | 0, _, _, _, _, _ => .error .fuelExhausted
  | fuel + 1, asset, currency, date, die, force =>
    match (if force = none ∨ force = some Provider.binance then
        try_provider env (get_change_factor_fuel env fuel) Provider.binance asset currency date
      else .ok none) with
    | .error e => .error e
    | .ok (some r) => .ok r
    | .ok none =>
      match (if force = none ∨ force = some Provider.kucoin then
          try_provider env (get_change_factor_fuel env fuel) Provider.kucoin asset currency date
        else .ok none) with
      | .error e => .error e
      | .ok (some r) => .ok r
      | .ok none =>
        if die then .error .rateNotFound else .ok (-1)

/-- Source `PriceFeed.get_change_factor`.  The fallback recursion is
depth-bounded by the fallback-currency guards (an inner call whose
asset or currency is the provider's fallback never recurses, so the
depth is at most 3); fuel 4 therefore always suffices and the wrapper
fixes it. -/
def get_change_factor (env : PriceEnv) (asset currency : Symb) (date : Option ℕ)
    (die : Bool) (force : Option Provider) : Except PriceErr ℚ :=
  get_change_factor_fuel env 4 asset currency date die force

theorem gcf_nosym_binance_guard (env : PriceEnv)
    (hsym : ∀ p s, env.symbols p s = false) (fuel : ℕ)
    (asset currency : Symb) (date : Option ℕ) (die : Bool)
    (hfb : asset = BUSD ∨ currency = BUSD) :
    get_change_factor_fuel env (fuel + 1) asset currency date die
        (some Provider.binance) =
      (if die then .error .rateNotFound else .ok (-1)) := by
  have hcond : ¬ (currency ≠ FALLBACK_CURRENCY Provider.binance ∧
      asset ≠ FALLBACK_CURRENCY Provider.binance) := by
    rcases hfb with h | h
    · exact fun hc => hc.2 (by rw [h]; rfl)
    · exact fun hc => hc.1 (by rw [h]; rfl)
  rw [get_change_factor_fuel,
    if_pos (Or.inr rfl :
      some Provider.binance = none ∨ some Provider.binance = some Provider.binance),
    try_provider,
    if_neg (by simp [hsym]),
    if_neg (by simp [hsym]),
    if_neg hcond,
    if_neg (by simp :
      ¬ (some Provider.binance = none ∨ some Provider.binance = some Provider.kucoin))]

theorem gcf_nosym_kucoin_guard (env : PriceEnv)
    (hsym : ∀ p s, env.symbols p s = false) (fuel : ℕ)
    (asset currency : Symb) (date : Option ℕ) (die : Bool)
    (hfb : asset = USDT ∨ currency = USDT) :
    get_change_factor_fuel env (fuel + 1) asset currency date die
        (some Provider.kucoin) =
      (if die then .error .rateNotFound else .ok (-1)) := by
  have hcond : ¬ (currency ≠ FALLBACK_CURRENCY Provider.kucoin ∧
      asset ≠ FALLBACK_CURRENCY Provider.kucoin) := by
    rcases hfb with h | h
    · exact fun hc => hc.2 (by rw [h]; rfl)
    · exact fun hc => hc.1 (by rw [h]; rfl)
  rw [get_change_factor_fuel,
    if_neg (by simp :
      ¬ (some Provider.kucoin = none ∨ some Provider.kucoin = some Provider.binance)),
    if_pos (Or.inr rfl :
      some Provider.kucoin = none ∨ some Provider.kucoin = some Provider.kucoin),
    try_provider,
    if_neg (by simp [hsym]),
    if_neg (by simp [hsym]),
    if_neg hcond]

theorem gcf_nosym_binance (env : PriceEnv)
    (hsym : ∀ p s, env.symbols p s = false) (fuel : ℕ)
    (asset currency : Symb) (date : Option ℕ) (die : Bool) :
    get_change_factor_fuel env (fuel + 2) asset currency date die
        (some Provider.binance) =
      (if die then .error .rateNotFound else .ok (-1)) := by
  by_cases hc : currency ≠ FALLBACK_CURRENCY Provider.binance ∧
      asset ≠ FALLBACK_CURRENCY Provider.binance
  · rw [show fuel + 2 = (fuel + 1) + 1 from rfl, get_change_factor_fuel,
      if_pos (Or.inr rfl :
        some Provider.binance = none ∨ some Provider.binance = some Provider.binance),
      try_provider,
      if_neg (by simp [hsym]),
      if_neg (by simp [hsym]),
      if_pos hc]
    simp only [FALLBACK_CURRENCY]
    rw [gcf_nosym_binance_guard env hsym fuel asset BUSD date false (Or.inr rfl),
      gcf_nosym_binance_guard env hsym fuel BUSD currency date false (Or.inl rfl)]
    simp
  · exact gcf_nosym_binance_guard env hsym (fuel + 1) asset currency date die (by
      rcases not_and_or.mp hc with h | h
      · exact Or.inr (not_not.mp h)
      · exact Or.inl (not_not.mp h))

theorem gcf_nosym_none (env : PriceEnv)
    (hsym : ∀ p s, env.symbols p s = false) (fuel : ℕ)
    (asset currency : Symb) (date : Option ℕ) (die : Bool) :
    get_change_factor_fuel env (fuel + 3) asset currency date die none =
      (if die then .error .rateNotFound else .ok (-1)) := by
  have step1 : (if (none : Option Provider) = none ∨
        (none : Option Provider) = some Provider.binance then
      try_provider env (get_change_factor_fuel env (fuel + 2)) Provider.binance
        asset currency date
    else .ok none) = .ok none := by
    rw [if_pos (Or.inl rfl), try_provider, if_neg (by simp [hsym]),
      if_neg (by simp [hsym])]
    by_cases hc : currency ≠ FALLBACK_CURRENCY Provider.binance ∧
        asset ≠ FALLBACK_CURRENCY Provider.binance
    · rw [if_pos hc]
      simp only [FALLBACK_CURRENCY]
      have e1 := gcf_nosym_binance_guard env hsym (fuel + 1) asset BUSD date false (Or.inr rfl)
      have e2 := gcf_nosym_binance_guard env hsym (fuel + 1) BUSD currency date false (Or.inl rfl)
      rw [show fuel + 1 + 1 = fuel + 2 from rfl] at e1 e2
      rw [e1, e2]
      simp
    · rw [if_neg hc]
  have step2 : (if (none : Option Provider) = none ∨
        (none : Option Provider) = some Provider.kucoin then
      try_provider env (get_change_factor_fuel env (fuel + 2)) Provider.kucoin
        asset currency date
    else .ok none) = .ok none := by
    rw [if_pos (Or.inl rfl), try_provider, if_neg (by simp [hsym]),
      if_neg (by simp [hsym])]
    by_cases hc : currency ≠ FALLBACK_CURRENCY Provider.kucoin ∧
        asset ≠ FALLBACK_CURRENCY Provider.kucoin
    · rw [if_pos hc]
      simp only [FALLBACK_CURRENCY]
      have e1 := gcf_nosym_kucoin_guard env hsym (fuel + 1) asset USDT date false (Or.inr rfl)
      rw [show fuel + 1 + 1 = fuel + 2 from rfl] at e1
      rw [e1, gcf_nosym_binance env hsym fuel USDT currency date false]
      simp
    · rw [if_neg hc]
  rw [show fuel + 3 = (fuel + 2) + 1 from rfl, get_change_factor_fuel, step1, step2]

/-- C6 (amended): for every asset/currency pair and optional date, when
no provider lists any symbol (so neither a direct pair nor any
bridge-leg pair can resolve), a non-probe call
(`die_on_failure = True`) fails with the "No symbol defined" error
(`RateNotFound`), while a probe-mode call (`die_on_failure = False`, as
the bridging legs use internally) returns the `-1` no-rate sentinel
instead of raising.  Probe mode only suppresses that final failure: a
price-fetch failure on a listed symbol propagates even in probe mode
(see the counterexample). -/
theorem rate_not_found_vs_probe_sentinel (env : PriceEnv)
    (hsym : ∀ p s, env.symbols p s = false)
    (asset currency : Symb) (date : Option ℕ) :
    get_change_factor env asset currency date true none =
      .error .rateNotFound ∧
    get_change_factor env asset currency date false none = .ok (-1) := by
  constructor
  · have h := gcf_nosym_none env hsym 1 asset currency date true
    rw [show (1 : ℕ) + 3 = 4 from rfl] at h
    rw [get_change_factor, h]
    rfl
  · have h := gcf_nosym_none env hsym 1 asset currency date false
    rw [show (1 : ℕ) + 3 = 4 from rfl] at h
    rw [get_change_factor, h]
    rfl

/-- The environment with no listed symbols at all. -/
def emptySymbolEnv : PriceEnv where
  symbols := fun _ _ => false
  currentPrice := fun _ _ => none
  kline := fun _ _ _ _ => []

/-- Witness for C6's amended theorem on a concrete environment and
pair. -/
theorem rate_not_found_vs_probe_sentinel_witness :
    get_change_factor emptySymbolEnv [65] [67] none true none =
      .error .rateNotFound ∧
    get_change_factor emptySymbolEnv [65] [67] none false none = .ok (-1) :=
  rate_not_found_vs_probe_sentinel emptySymbolEnv (fun _ _ => rfl) [65] [67] none

/-- An environment in which kucoin lists exactly the bridge-leg symbol
"asset-USDT" (asset = code list `[65]`) and every price fetch returns
no values. -/
def bridgeLegEnv : PriceEnv where
  symbols := fun p s =>
    decide (p = Provider.kucoin) && decide (s = [65] ++ [45] ++ USDT)
  currentPrice := fun _ _ => none
  kline := fun _ _ _ _ => []

/-- C6 counterexample: with no provider listing any symbol for the
queried pair `([65], [67])` itself, a probe-mode call still raises —
the kucoin bridge leg `[65] → USDT` finds its listed symbol, its price
fetch returns no values, and that failure propagates through probe
mode instead of being swallowed into the `-1` sentinel; the non-probe
call fails with the same fetch error rather than `RateNotFound`. -/
theorem probe_mode_failure_counterexample :
    bridgeLegEnv.symbols Provider.binance ([67] ++ [65]) = false ∧
    bridgeLegEnv.symbols Provider.binance ([65] ++ [67]) = false ∧
    bridgeLegEnv.symbols Provider.kucoin ([67] ++ [45] ++ [65]) = false ∧
    bridgeLegEnv.symbols Provider.kucoin ([65] ++ [45] ++ [67]) = false ∧
    get_change_factor bridgeLegEnv [65] [67] none false none =
      .error .noApiData ∧
    get_change_factor bridgeLegEnv [65] [67] none true none =
      .error .noApiData := by
  refine ⟨rfl, rfl, rfl, rfl, rfl, rfl⟩

/-- C7 (amended): for a historical price query on a listed currency-led
binance symbol, the source requests the kline window from `at − 60000`
ms to `at` ms and takes the first returned sample; if that window holds
no sample the call fails with `NoHistoricalData` (the raise at
ledger.py line 76), and if the resolved price is zero — falsy in
Python — the call fails with `InvalidPrice` (the raise at line 56).
A strictly negative resolved price, however, is not rejected and is
returned as the rate (see the counterexample), so only the zero case
fails. -/
theorem historical_window_and_error_kinds (env : PriceEnv) (asset currency : Symb)
    (t : ℕ) (die : Bool)
    (hsym : env.symbols Provider.binance
      (currency ++ symbol_delimiter Provider.binance ++ asset) = true) :
    (env.kline Provider.binance
        (currency ++ symbol_delimiter Provider.binance ++ asset) (t - 60000) t = [] →
      get_change_factor env asset currency (some t) die none =
        .error .noHistoricalData) ∧
    (∀ rest, env.kline Provider.binance
        (currency ++ symbol_delimiter Provider.binance ++ asset) (t - 60000) t =
          0 :: rest →
      get_change_factor env asset currency (some t) die none =
        .error .invalidPrice) := by
  constructor
  · intro hk
    rw [get_change_factor, show (4 : ℕ) = 3 + 1 from rfl, get_change_factor_fuel,
      if_pos (Or.inl rfl :
        (none : Option Provider) = none ∨ (none : Option Provider) = some Provider.binance),
      try_provider, if_pos hsym, resolveSymbolPrice, get_historical_symbol_price]
    rw [hk]
  · intro rest hk
    rw [get_change_factor, show (4 : ℕ) = 3 + 1 from rfl, get_change_factor_fuel,
      if_pos (Or.inl rfl :
        (none : Option Provider) = none ∨ (none : Option Provider) = some Provider.binance),
      try_provider, if_pos hsym, resolveSymbolPrice, get_historical_symbol_price]
    rw [hk]
    norm_num

/-- An environment listing the currency-led binance symbol `[67, 65]`
whose historical queries return no samples. -/
def emptyKlineEnv : PriceEnv where
  symbols := fun p s =>
    decide (p = Provider.binance) && decide (s = [67] ++ [65])
  currentPrice := fun _ _ => none
  kline := fun _ _ _ _ => []

/-- Witness for C7's amended theorem. -/
theorem historical_window_and_error_kinds_witness :
    get_change_factor emptyKlineEnv [65] [67] (some 100000) true none =
      .error .noHistoricalData :=
  (historical_window_and_error_kinds emptyKlineEnv [65] [67] 100000 true rfl).1 rfl

/-- An environment listing the asset-led binance symbol `[65, 67]`
whose historical queries resolve to the negative price `-2`. -/
def negPriceEnv : PriceEnv where
  symbols := fun p s =>
    decide (p = Provider.binance) && decide (s = [65] ++ [67])
  currentPrice := fun _ _ => none
  kline := fun _ _ _ _ => [-2]

/-- C7 counterexample: a historical query resolving to the strictly
negative price `-2` (truthy in Python) does not fail with
`InvalidPrice` — the rate `-2` is returned. -/
theorem negative_price_counterexample :
    negPriceEnv.kline Provider.binance ([65] ++ [67]) (100000 - 60000) 100000 = [-2] ∧
    (-2 : ℚ) < 0 ∧
    get_change_factor negPriceEnv [65] [67] (some 100000) true none = .ok (-2) := by
  refine ⟨rfl, by norm_num, ?_⟩
  rfl

/-- Source `LedgerContainer.__init__` (ledger.py lines 268-278): build
each asset's ledger in sequence, storing the results keyed by asset
name.  The loop body (file imports, price lookups,
`calculate_position_from_history`) is abstracted as a function from
the asset name to either the finished ledger value or the error it
raises; the constructor contains no exception handling, so an error in
one asset's build propagates out of the loop (and out of `__init__`,
discarding the partially built mapping).  `print_summary`
(lines 280-300) iterates the same way, also without exception
handling. -/
def container_init {L : Type} (build : Symb → Except PriceErr L) :
    List Symb → Except PriceErr (List (Symb × L))
  | [] => .ok []
  | a :: rest =>
    match build a with
    | .error e => .error e
    | .ok led =>
      match container_init build rest with
      | .error e => .error e
      | .ok ls => .ok ((a, led) :: ls)

/-- C9 (amended): an error while computing one asset's ledger aborts
the whole portfolio construction, not just that asset: if every asset
before `a` builds successfully and `a`'s build fails with `e`, the
container construction fails with `e`, and no asset in the portfolio —
not even one that would build successfully — gets reportable results. -/
theorem asset_failure_aborts_container {L : Type}
    (build : Symb → Except PriceErr L) (a : Symb) (e : PriceErr)
    (post : List Symb) (ha : build a = .error e) :
    ∀ pre : List Symb, (∀ x ∈ pre, ∃ led, build x = .ok led) →
      container_init build (pre ++ a :: post) = .error e := by
  intro pre
  induction pre with
  | nil =>
    intro _
    rw [List.nil_append, container_init, ha]
  | cons p pre' ih =>
    intro hpre
    obtain ⟨led, hled⟩ := hpre p (List.mem_cons_self p pre')
    rw [List.cons_append, container_init, hled,
      ih (fun x hx => hpre x (List.mem_cons_of_mem _ hx))]

/-- Witness for C9's amended theorem on a concrete two-asset portfolio
where the second asset's build fails. -/
theorem asset_failure_aborts_container_witness :
    container_init
      (fun x => if x = ([66] : Symb) then .error .rateNotFound else .ok (7 : ℕ))
      ([65] :: [66] :: [67] :: []) = .error .rateNotFound := by
  have h := asset_failure_aborts_container
    (fun x => if x = ([66] : Symb) then .error .rateNotFound else .ok (7 : ℕ))
    [66] .rateNotFound [[67]] (by rfl) [[65]]
    (by intro x hx; simp only [List.mem_singleton] at hx; exact ⟨7, by subst hx; rfl⟩)
  simpa using h

/-- C9 counterexample: asset `[66]`'s build fails while asset `[67]`'s
build succeeds on its own, yet the container construction fails
outright — asset `[67]` gets no reportable result, contradicting the
claim that one asset's failure leaves every other asset's results
valid and reportable. -/
theorem asset_isolation_counterexample :
    (fun x => if x = ([66] : Symb) then (.error .rateNotFound : Except PriceErr ℕ)
      else .ok 7) [67] = .ok 7 ∧
    container_init
      (fun x => if x = ([66] : Symb) then .error .rateNotFound else .ok (7 : ℕ))
      [[66], [67]] = .error .rateNotFound := by
  exact ⟨rfl, rfl⟩
